import Mathlib

/-!
Shallow embedding of the `pubsub` repository (publisher.py, subscriber_redis.py).

Python strings are modelled as `List Char` (`Str`), Python `None`-able dict
entries as `Option`, exceptions as `Except PyErr`.  Numeric JSON values are
modelled as integers (the code only compares them, and comparison order is
all that matters for the verified properties).
-/

namespace PubSub

abbrev Str := List Char

/-- Python exception kinds that the embedded code can raise. -/
inductive PyErr where
  | keyError
  | typeError
  | valueError
  | jsonError
  | indexError
deriving DecidableEq, Repr

instance {ε α : Type} [DecidableEq ε] [DecidableEq α] : DecidableEq (Except ε α) := fun
  | .error e, .error f =>
    if h : e = f then .isTrue (by rw [h]) else .isFalse (fun c => by cases c; exact h rfl)
  | .error _, .ok _ => .isFalse (fun c => by cases c)
  | .ok _, .error _ => .isFalse (fun c => by cases c)
  | .ok a, .ok b =>
    if h : a = b then .isTrue (by rw [h]) else .isFalse (fun c => by cases c; exact h rfl)

/-- Python `str.strip()` whitespace set (ASCII part). -/
def isPySpace (c : Char) : Bool :=
  c = ' ' || c = '\t' || c = '\n' || c = '\x0d' || c = '\x0b' || c = '\x0c'

/-- Python `s.strip()`. -/
def pyStrip (s : Str) : Str :=
  ((s.dropWhile isPySpace).reverse.dropWhile isPySpace).reverse

/-- Python `s.lower()` (ASCII). -/
def pyLower (s : Str) : Str := s.map Char.toLower

/-- Python `s.split(sep)` for a single-character separator: never returns an
empty list, keeps empty fields. -/
def splitOnChar (sep : Char) : Str → List Str
  | [] => [[]]
  | c :: rest =>
    if c = sep then [] :: splitOnChar sep rest
    else
      match splitOnChar sep rest with
      | [] => [[c]]
      | h :: t => (c :: h) :: t

/-- The part of `s` after the first occurrence of `sep`
(`s.split(sep, 1)[1]`); `none` when `sep` does not occur. -/
def afterFirst (sep : Char) : Str → Option Str
  | [] => none
  | c :: rest => if c = sep then some rest else afterFirst sep rest

/-- Index of the first occurrence of `c` in `s`, or `none`. -/
def findIdx (c : Char) : Str → Option Nat
  | [] => none
  | a :: rest => if a = c then some 0 else (findIdx c rest).map (· + 1)

/-- Python `s.find(c)`: first index or `-1`. -/
def pyFind (s : Str) (c : Char) : Int :=
  match findIdx c s with
  | some i => (i : Int)
  | none => -1

/-- Python `s.rfind(c)`: last index or `-1`. -/
def pyRfind (s : Str) (c : Char) : Int :=
  match findIdx c s.reverse with
  | some i => ((s.length - 1 - i : Nat) : Int)
  | none => -1

/-- Normalize a Python slice endpoint against a length. -/
def pyIdx (len : Nat) (i : Int) : Nat :=
  if i < 0 then (i + len).toNat else min i.toNat len

/-- Python `s[i:j]` slice semantics (negative indices count from the end,
out-of-range endpoints are clamped). -/
def pySlice (s : Str) (i j : Int) : Str :=
  (s.take (pyIdx s.length j)).drop (pyIdx s.length i)

/-- Remove every (non-overlapping, leftmost-first) occurrence of `pat`,
fuel-driven so that it reduces by `decide`.  A step always consumes at least
one character, so `fuel = s.length` is enough. -/
def removeAllFuel (pat : Str) : Nat → Str → Str
  | _, [] => []
  | 0, s => s
  | fuel + 1, c :: rest =>
    if pat ≠ [] ∧ pat.isPrefixOf (c :: rest) then
      removeAllFuel pat fuel ((c :: rest).drop pat.length)
    else
      c :: removeAllFuel pat fuel rest

/-- Python `s.replace(pat, '')` (for the empty pattern Python returns `s`
unchanged when the replacement is also empty). -/
def removeAll (pat s : Str) : Str := removeAllFuel pat s.length s

/-- Digits of a natural number, most significant first (fuel-driven). -/
def natDigitsFuel : Nat → Nat → Str
  | 0, _ => []
  | fuel + 1, n =>
    if n = 0 then []
    else natDigitsFuel fuel (n / 10) ++ [Char.ofNat (48 + n % 10)]

/-- Decimal rendering of a `Nat`. -/
def natToStr (n : Nat) : Str :=
  if n = 0 then ['0'] else natDigitsFuel (n + 1) n

/-- Python `str(i)` for an integer. -/
def intToStr (i : Int) : Str :=
  if i < 0 then '-' :: natToStr i.natAbs else natToStr i.toNat

/-- Parse a decimal digit string (at least one digit). -/
def digitsToNat : Str → Option Nat
  | [] => none
  | s =>
    s.foldl (fun acc c =>
      match acc with
      | none => none
      | some n => if c.isDigit then some (n * 10 + (c.toNat - 48)) else none)
      (some 0)

/-- Python `int(s)` on an already-stripped string: optional sign, then
decimal digits; `none` models `ValueError`. -/
def pyInt (s : Str) : Option Int :=
  match s with
  | '-' :: rest => (digitsToNat rest).map (fun n => -(n : Int))
  | '+' :: rest => (digitsToNat rest).map (fun n => (n : Int))
  | _ => (digitsToNat s).map (fun n => (n : Int))

/-! ## publisher.py : parse_message -/

/-- `REPLACE_CONSTRUCTORS = set(['Static', 'Resolvable', 'Non-Resolvable'])`. -/
def REPLACE_CONSTRUCTORS : List Str :=
  ["Static".data, "Resolvable".data, "Non-Resolvable".data]

/-- The Python dict built by `parse_message`: `sniffer_addr` and `datetime`
are always set; the other keys are present only when a matching line was
seen.  `rssi = some none` models the dict entry being set to Python `None`
after an `int()` parse failure. -/
structure AdvData where
  sniffer_addr : Str
  datetime : Str
  adv_constructor : Option Str
  adv_addr : Option Str
  rssi : Option (Option Int)
deriving DecidableEq, Repr

/-- One iteration of the `for line in lines[2:]` body in `parse_message`:
the three sequential `if line.startswith(...)` blocks. -/
def lineStep (d0 : AdvData) (line : Str) : AdvData :=
  let d1 :=
    if "        Address:".data.isPrefixOf line then
      match afterFirst ':' line with
      | none => d0
      | some addr =>
        let constructor := pySlice addr (pyFind addr '(') (pyRfind addr ')' + 1)
        { d0 with
          adv_constructor := some (removeAll [')'] (removeAll ['('] constructor))
          adv_addr := some (pyLower (pyStrip (removeAll constructor addr))) }
    else d0
  let d2 :=
    if "        Company:".data.isPrefixOf line then
      match afterFirst ':' line with
      | none => d1
      | some company =>
        let rm := pySlice company (pyFind company '(') (pyFind company ')' + 1)
        match d1.adv_constructor with
        | some c =>
          if c ∈ REPLACE_CONSTRUCTORS then
            { d1 with adv_constructor := some (pyStrip (removeAll rm company)) }
          else d1
        | none => d1
    else d1
  if "        RSSI:".data.isPrefixOf line then
    match afterFirst ':' line with
    | none => d2
    | some rssi0 =>
      let r := pyStrip (removeAll "dBm".data (pySlice rssi0 0 (-6)))
      { d2 with rssi := some (pyInt r) }
  else d2

/-- `parse_message(msg)` from publisher.py.  `.error` models the uncaught
`IndexError` on `lines[1]` when the block has a single line; `.ok none`
models `return None` for non-advertising blocks. -/
def parse_message (sniffer_addr : Str) (msg : Str) : Except PyErr (Option AdvData) :=
  let lines := splitOnChar '\n' msg
  match lines.get? 1 with
  | none => .error .indexError
  | some l1 =>
    if "LE Advertising Report".data.isPrefixOf (pyStrip l1) then
      .ok (some ((lines.drop 2).foldl lineStep
        { sniffer_addr := sniffer_addr
          datetime := pySlice (lines.headD []) (-26) (lines.headD []).length
          adv_constructor := none
          adv_addr := none
          rssi := none }))
    else
      .ok none

/-! ## publisher.py : loop (the record framer) -/

/-- `line.startswith('>') or line.startswith('<')`. -/
def isMarker (line : Str) : Bool :=
  match line with
  | c :: _ => c = '>' || c = '<'
  | [] => false

/-- The framing loop of publisher.py, with the `(inside_msg, msg)` state
explicit; returns the blocks handed to `process_message`, in order. -/
def frame : Bool → Str → List Str → List Str
  | _, _, [] => []
  | inside, msg, line :: rest =>
    if isMarker line then
      (if inside then [msg] else []) ++ frame true line rest
    else if inside then frame true (msg ++ line) rest
    else frame inside msg rest

/-- `loop` with its initial state `inside_msg = False`, `msg = ''`. -/
def framer (input : List Str) : List Str := frame false [] input

/-- Spec-side grouping (§4.1 wording): from a line list starting at a marker,
each group begins at a marker line and extends to just before the next
marker.  Fuel-driven (each step consumes at least one line) so it reduces by
`decide`. -/
def groupBlocksF : Nat → List Str → List (List Str)
  | _, [] => []
  | 0, l => [l]
  | fuel + 1, line :: rest =>
    (line :: rest.takeWhile (fun l => !isMarker l)) ::
      groupBlocksF fuel (rest.dropWhile (fun l => !isMarker l))

/-- Spec-side grouping with adequate fuel. -/
def groupBlocks (ls : List Str) : List (List Str) := groupBlocksF ls.length ls

/-- The blocks §4.1 says the framer emits: lines before the first marker are
discarded, blocks are delimited by marker lines, the trailing open block is
dropped, and each block is the concatenation of its lines. -/
def specBlocks (input : List Str) : List Str :=
  ((groupBlocks (input.dropWhile (fun l => !isMarker l))).dropLast).map List.flatten

/-! ## publisher.py : process_message (the publish sink)

The serialized payload is `json.dumps(data, separators=(',',':'))`; external
effects (durable-log write/flush, bus publish) are modelled as an emitted
event trace, with a boolean oracle for whether the log write-or-flush raises.
-/

/-- Minimal JSON string escaping (quote, backslash, the control characters
that can appear in this pipeline's ASCII data). -/
def jsonEscape (s : Str) : Str :=
  s.foldr (fun c acc =>
    if c = '"' then '\\' :: '"' :: acc
    else if c = '\\' then '\\' :: '\\' :: acc
    else if c = '\n' then '\\' :: 'n' :: acc
    else if c = '\t' then '\\' :: 't' :: acc
    else if c = '\x0d' then '\\' :: 'r' :: acc
    else c :: acc) []

/-- One serialized JSON member `"k":v`. -/
def jsonMember (k : Str) (v : Str) : Str :=
  '"' :: k ++ '"' :: ':' :: v

/-- `json.dumps(data, separators=(',',':'))` for the parser's dict: keys in
insertion order (`sniffer_addr`, `datetime`, then `adv_constructor` /
`adv_addr` / `rssi` when present), no extra whitespace. -/
def jdumps (d : AdvData) : Str :=
  let base :=
    [jsonMember "sniffer_addr".data ('"' :: jsonEscape d.sniffer_addr ++ ['"']),
     jsonMember "datetime".data ('"' :: jsonEscape d.datetime ++ ['"'])]
  let withCtor :=
    match d.adv_constructor with
    | some c => base ++ [jsonMember "adv_constructor".data ('"' :: jsonEscape c ++ ['"'])]
    | none => base
  let withAddr :=
    match d.adv_addr with
    | some a => withCtor ++ [jsonMember "adv_addr".data ('"' :: jsonEscape a ++ ['"'])]
    | none => withCtor
  let withRssi :=
    match d.rssi with
    | some (some n) => withAddr ++ [jsonMember "rssi".data (intToStr n)]
    | some none => withAddr ++ [jsonMember "rssi".data "null".data]
    | none => withAddr
  '{' :: (withRssi.intersperse [',']).flatten ++ ['}']

/-- Observable actions of `process_message` after parsing: the attempted
durable-log write (succeeding or raising-and-logged) and the bus publish
submission, each carrying the serialized payload. -/
inductive SinkEvent where
  | persistWrite (payload : Str)
  | persistError (payload : Str)
  | publish (payload : Str)
deriving DecidableEq, Repr

/-- `process_message(msg, ...)` from publisher.py as an event trace.
`persistConfigured` models `persist_store` being non-`None`;
`persistFails` models the write-or-flush to it raising (the exception is
caught and logged, execution continues).  A parse exception or a `None`
parse result returns early with no events. -/
def process_message (sniffer_addr : Str) (msg : Str)
    (persistConfigured persistFails : Bool) : List SinkEvent :=
  match parse_message sniffer_addr msg with
  | .error _ => []
  | .ok none => []
  | .ok (some d) =>
    let s := jdumps d
    (if persistConfigured then
      (if persistFails then [SinkEvent.persistError s] else [SinkEvent.persistWrite s])
     else []) ++ [SinkEvent.publish s]

/-! ## subscriber_redis.py : _upsert and callback

Redis values are modelled by their JSON parse result: `some v` for text that
decodes to the JSON value `v`, `none` for text that is not valid JSON.  The
store is an association list with in-place update. -/

/-- An atomic JSON value (numbers as integers; the code only ever compares
them, so only their order matters). -/
inductive JAtom where
  | anum (n : Int)
  | astr (s : Str)
  | anull
deriving DecidableEq, Repr

/-- A JSON value as produced by `json.loads`.  Every payload this pipeline
produces or stores is a flat object of atomic fields, so the model fixes
that shape (atoms, plus one object level). -/
inductive JVal where
  | jnum (n : Int)
  | jstr (s : Str)
  | jobj (fields : List (Str × JAtom))
  | jnull
deriving DecidableEq, Repr

/-- Embed an object field's atomic value back into `JVal`. -/
def JAtom.toJVal : JAtom → JVal
  | .anum n => .jnum n
  | .astr s => .jstr s
  | .anull => .jnull

/-- A redis value / message payload: its JSON parse, or `none` when the
text is not valid JSON. -/
abbrev RVal := Option JVal

/-- The redis database. -/
abbrev Store := List (Str × RVal)

/-- `redis.get(key)`. -/
def rget (st : Store) (k : Str) : Option RVal :=
  match st with
  | [] => none
  | (k', v) :: rest => if k' = k then some v else rget rest k

/-- `redis.set(key, value)`: replace in place, append when absent. -/
def rset (st : Store) (k : Str) (v : RVal) : Store :=
  match st with
  | [] => [(k, v)]
  | (k', v') :: rest => if k' = k then (k, v) :: rest else (k', v') :: rset rest k v

/-- `json.loads(value)`: raises on invalid JSON. -/
def jloads (v : RVal) : Except PyErr JVal :=
  match v with
  | none => .error .jsonError
  | some d => .ok d

/-- Dict lookup inside a JSON object. -/
def jlookup (fields : List (Str × JAtom)) (k : Str) : Option JAtom :=
  match fields with
  | [] => none
  | (k', v) :: rest => if k' = k then some v else jlookup rest k

/-- `d[k]`: `KeyError` when missing, `TypeError` when `d` is not a dict. -/
def jget (d : JVal) (k : Str) : Except PyErr JVal :=
  match d with
  | .jobj fields =>
    match jlookup fields k with
    | some v => .ok v.toJVal
    | none => .error .keyError
  | _ => .error .typeError

/-- Lexicographic strict order on strings (Python `<` on `str`). -/
def lexLt : Str → Str → Bool
  | [], [] => false
  | [], _ :: _ => true
  | _ :: _, [] => false
  | a :: as, b :: bs => if a < b then true else if b < a then false else lexLt as bs

/-- Python `a >= b` for the JSON values that can sit in a `time` field:
defined for two numbers or two strings, `TypeError` otherwise. -/
def jge (a b : JVal) : Except PyErr Bool :=
  match a, b with
  | .jnum x, .jnum y => .ok (y ≤ x)
  | .jstr x, .jstr y => .ok (!lexLt x y)
  | _, _ => .error .typeError

/-- `_upsert(key, value)` from subscriber_redis.py.  All possible raises
(invalid JSON, missing `time`, non-comparable `time`) happen before the
`redis.set`, so an `.error` result leaves the store unchanged. -/
def upsert (st : Store) (key : Str) (value : RVal) : Except PyErr Store := do
  let value_dict ← jloads value
  match rget st key with
  | none => pure (rset st key value)
  | some current => do
    let current_dict ← jloads current
    let tv ← jget value_dict "time".data
    let tc ← jget current_dict "time".data
    let b ← jge tv tc
    if b then pure (rset st key value) else pure st

/-- Python `str(x)` restricted to the values that appear as ids in this
pipeline (numbers and strings; the rendering of compound values is not
exercised by any verified property). -/
def pyStr (v : JVal) : Str :=
  match v with
  | .jnum n => intToStr n
  | .jstr s => s
  | .jobj _ => "{}".data
  | .jnull => "None".data

/-- `'station_id:' + str(data['station_id'])`. -/
def stationKey (a : JVal) : Str := "station_id:".data ++ pyStr a

/-- `'beacon_id:' + str(data['beacon_id'])`. -/
def beaconKey (b : JVal) : Str := "beacon_id:".data ++ pyStr b

/-- `','.join([station_key, beacon_key])`. -/
def stationBeaconKey (a b : JVal) : Str := stationKey a ++ ',' :: beaconKey b

/-- The `try:` block of `callback`: the three sequential `_upsert` calls.
An exception stops the sequence but keeps the writes already made; the
boolean records whether all three completed without raising. -/
def upsert3 (st : Store) (k1 k2 k3 : Str) (v : RVal) : Store × Bool :=
  match upsert st k1 v with
  | .error _ => (st, false)
  | .ok st1 =>
    match upsert st1 k2 v with
    | .error _ => (st1, false)
    | .ok st2 =>
      match upsert st2 k3 v with
      | .error _ => (st2, false)
      | .ok st3 => (st3, true)

/-- What `callback` did with the message. -/
inductive COutcome where
  | raised
  | nacked
  | acked
deriving DecidableEq, Repr

/-- The prefix of `callback` before its `try:` block: `json.loads` of the
message data and the two id lookups used to derive the keys.  Any exception
here escapes `callback` uncaught. -/
def deriveIds (v : RVal) : Except PyErr (JVal × JVal) := do
  let data ← jloads v
  let a ← jget data "station_id".data
  let b ← jget data "beacon_id".data
  pure (a, b)

/-- `callback(message)` from subscriber_redis.py: `raised` models an
uncaught exception during `json.loads` / key derivation (before the `try:`
block), `nacked` a caught upsert failure (no `message.ack()`), `acked` the
`else: message.ack()` path. -/
def callback (st : Store) (v : RVal) : Store × COutcome :=
  match deriveIds v with
  | .error _ => (st, .raised)
  | .ok (a, b) =>
    match upsert3 st (stationKey a) (beaconKey b) (stationBeaconKey a b) v with
    | (st', true) => (st', .acked)
    | (st', false) => (st', .nacked)

/-! ## Concrete data for the end-to-end scenario of §8 -/

/-- The §8 scenario block, exactly as the spec frames it (each line as the
framer would accumulate it, newline included). -/
def c1Block : Str :=
  (">  HCI Event: LE Advertising Report\n" ++
   "        Address: AA:BB:CC:DD:EE:FF (Static)\n" ++
   "        Company: 1234 (Acme Corp)\n" ++
   "        RSSI: -45 dBm (bad)\n").data

/-- The §8 scenario block with an advertising-report marker line inserted as
the block's second line, which is what `parse_message` actually requires. -/
def c1Fixed : Str :=
  (">  HCI Event: LE Advertising Report\n" ++
   "        LE Advertising Report (0x02)\n" ++
   "        Address: AA:BB:CC:DD:EE:FF (Static)\n" ++
   "        Company: 1234 (Acme Corp)\n" ++
   "        RSSI: -45 dBm (bad)\n").data

/-- A sniffer address used by the concrete scenarios. -/
def sniffer0 : Str := "00:1a:7d:da:71:13".data

/-- The parse result of `c1Fixed`. -/
def c1Parsed : AdvData :=
  { sniffer_addr := sniffer0
    datetime := "ent: LE Advertising Report".data
    adv_constructor := some "1234".data
    adv_addr := some "aa:bb:cc:dd:ee:ff".data
    rssi := some (some (-45)) }

/-- A generic telemetry payload as produced by pubsub.py (`station_id`,
`beacon_id`, `time`), already parsed from its wire JSON. -/
def tmsg (sid bid t : Int) : RVal :=
  some (.jobj [("station_id".data, .anum sid), ("beacon_id".data, .anum bid),
               ("time".data, .anum t)])

/-! ## Claim theorems : parser side -/

/-- C1 counterexample.  The §8 scenario block, framed exactly as written
(followed by the next marker line that closes it), parses to **no event at
all**: its second line is the `Address:` line, not a line starting with
`LE Advertising Report`, so `parse_message` returns `None` — not a record
with `addressKind = "Acme Corp"`. -/
theorem claim_C1_counterexample :
    framer ([">  HCI Event: LE Advertising Report\n".data,
             "        Address: AA:BB:CC:DD:EE:FF (Static)\n".data,
             "        Company: 1234 (Acme Corp)\n".data,
             "        RSSI: -45 dBm (bad)\n".data,
             "> next marker line\n".data]) = [c1Block] ∧
    parse_message sniffer0 c1Block = .ok none := by
  constructor
  · decide
  · decide

/-- C1 amended.  With the advertising-report marker inserted as the block's
second line, the block parses to an event; its `addressKind`
(`adv_constructor`) is the Company line's text outside the parenthesized
group, trimmed — here `"1234"`, not `"Acme Corp"` — while `deviceAddress`
is `"aa:bb:cc:dd:ee:ff"` and `signalStrength` is `-45` as claimed. -/
theorem claim_C1_amended :
    parse_message sniffer0 c1Fixed = .ok (some c1Parsed) ∧
    c1Parsed.adv_constructor = some "1234".data ∧
    c1Parsed.adv_constructor ≠ some "Acme Corp".data := by
  refine ⟨by decide, by decide, by decide⟩

/-- C6.  Any block whose second line does not begin, after stripping, with
the literal `LE Advertising Report` parses to no event, whatever the
remaining lines contain. -/
theorem claim_C6_nonreport_skipped (sniffer msg l1 : Str)
    (h1 : (splitOnChar '\n' msg).get? 1 = some l1)
    (h2 : "LE Advertising Report".data.isPrefixOf (pyStrip l1) = false) :
    parse_message sniffer msg = .ok none := by
  unfold parse_message
  simp only [h1, h2]
  rfl

/-- C6 witness: a connection-event block is skipped. -/
theorem claim_C6_witness :
    parse_message sniffer0
      ("> HCI Event: LE Meta Event\n        LE Connection Complete (0x01)\n        Address: AA:BB:CC:DD:EE:FF (Static)\n").data
      = .ok none :=
  claim_C6_nonreport_skipped sniffer0 _
    "        LE Connection Complete (0x01)".data (by decide) (by decide)

/-- Auxiliary: the Python slice `s[:-6]` drops the last six characters. -/
theorem pySlice_neg6 (s : Str) : pySlice s 0 (-6) = s.take (s.length - 6) := by
  have h1 : pyIdx s.length (-6) = s.length - 6 := by
    unfold pyIdx
    simp only [if_pos (by norm_num : (-6 : Int) < 0)]
    omega
  have h2 : pyIdx s.length 0 = 0 := by
    unfold pyIdx
    simp
  rw [pySlice, h1, h2, List.drop_zero]

/-- C7.  Processing a line `        RSSI:<rest>` drops the fixed 6-character
suffix of `<rest>`, removes every occurrence of `dBm`, strips whitespace and
stores the `int()` parse of the remainder; a parse failure stores Python
`None` (no exception: `lineStep` is total), and the address fields are
untouched. -/
theorem claim_C7_rssi_parse (d : AdvData) (rest : Str) :
    (lineStep d ("        RSSI:".data ++ rest)).rssi =
      some (pyInt (pyStrip (removeAll "dBm".data (rest.take (rest.length - 6))))) ∧
    (lineStep d ("        RSSI:".data ++ rest)).adv_constructor = d.adv_constructor ∧
    (lineStep d ("        RSSI:".data ++ rest)).adv_addr = d.adv_addr ∧
    (pyInt (pyStrip (removeAll "dBm".data (rest.take (rest.length - 6)))) = none →
      (lineStep d ("        RSSI:".data ++ rest)).rssi = some none) := by
  have key : lineStep d ("        RSSI:".data ++ rest) =
      { d with rssi := some (pyInt (pyStrip (removeAll "dBm".data (pySlice rest 0 (-6))))) } := by
    simp +decide [lineStep, List.isPrefixOf, afterFirst]
  rw [key, pySlice_neg6]
  refine ⟨rfl, rfl, rfl, fun h => ?_⟩
  rw [h]

/-- C9.  Once a block parses to an event, the publish submission is attempted
with the serialized payload whether or not the durable-log write/flush
raises, and with the same payload in both cases. -/
theorem claim_C9_persist_failure_still_publishes (sniffer msg : Str) (d : AdvData)
    (h : parse_message sniffer msg = .ok (some d)) :
    process_message sniffer msg true true =
      [SinkEvent.persistError (jdumps d), SinkEvent.publish (jdumps d)] ∧
    process_message sniffer msg true false =
      [SinkEvent.persistWrite (jdumps d), SinkEvent.publish (jdumps d)] := by
  constructor
  · unfold process_message
    rw [h]
    rfl
  · unfold process_message
    rw [h]
    rfl

/-- C9 witness: the fixed scenario block is published after a failed local
write, with the same serialized payload. -/
theorem claim_C9_witness :
    process_message sniffer0 c1Fixed true true =
      [SinkEvent.persistError (jdumps c1Parsed), SinkEvent.publish (jdumps c1Parsed)] ∧
    process_message sniffer0 c1Fixed true false =
      [SinkEvent.persistWrite (jdumps c1Parsed), SinkEvent.publish (jdumps c1Parsed)] :=
  claim_C9_persist_failure_still_publishes sniffer0 c1Fixed c1Parsed (by decide)

/-! ## Store lemmas -/

theorem bind_ok_eq {ε α β : Type} (a : α) (f : α → Except ε β) :
    (Except.ok a : Except ε α) >>= f = f a := rfl

theorem bind_error_eq {ε α β : Type} (e : ε) (f : α → Except ε β) :
    (Except.error e : Except ε α) >>= f = Except.error e := rfl

theorem pure_eq_ok {ε α : Type} (a : α) : (pure a : Except ε α) = Except.ok a := rfl

theorem rget_rset (st : Store) (k : Str) (v : RVal) (k' : Str) :
    rget (rset st k v) k' = if k = k' then some v else rget st k' := by
  induction st with
  | nil => by_cases h : k = k' <;> simp [rset, rget, h]
  | cons p t ih =>
    obtain ⟨a, b⟩ := p
    by_cases h1 : a = k
    · subst h1
      by_cases h2 : a = k' <;> simp [rset, rget, h2]
    · by_cases h2 : a = k'
      · subst h2
        have h3 : ¬ k = a := fun hh => h1 hh.symm
        simp [rset, rget, h1, h3]
      · simp [rset, rget, h1, h2, ih]

theorem rset_of_rget_self (st : Store) (k : Str) (v : RVal) (h : rget st k = some v) :
    rset st k v = st := by
  induction st with
  | nil => simp [rget] at h
  | cons p t ih =>
    obtain ⟨a, b⟩ := p
    by_cases h1 : a = k
    · subst h1
      simp [rget] at h
      simp [rset, h]
    · simp [rget, h1] at h
      simp [rset, h1, ih h]

theorem rget_self_of_rset_eq (st : Store) (k : Str) (v : RVal) (h : rset st k v = st) :
    rget st k = some v := by
  induction st with
  | nil => simp [rset] at h
  | cons p t ih =>
    obtain ⟨a, b⟩ := p
    by_cases h1 : a = k
    · subst h1
      simp [rset] at h
      simp [rget, h]
    · simp [rset, h1] at h
      simp [rget, h1, ih h]

/-! ## Upsert lemmas -/

theorem lexLt_self (s : Str) : lexLt s s = false := by
  induction s with
  | nil => rfl
  | cons a as ih => simp [lexLt, ih]

theorem jge_self_ok (v : JVal) (b : Bool) (h : jge v v = .ok b) : b = true := by
  cases b with
  | true => rfl
  | false =>
    cases v with
    | jnum n => simp [jge] at h
    | jstr s => simp [jge, lexLt_self] at h
    | jobj fs => simp [jge] at h
    | jnull => simp [jge] at h

theorem upsert_absent (st : Store) (k : Str) (v : RVal) (dv : JVal)
    (hv : jloads v = .ok dv) (h : rget st k = none) :
    upsert st k v = .ok (rset st k v) := by
  simp only [upsert, hv, h, bind_ok_eq, pure_eq_ok]

theorem upsert_write (st : Store) (k : Str) (v c : RVal) (dv dc tv tc : JVal)
    (hv : jloads v = .ok dv) (h : rget st k = some c) (hc : jloads c = .ok dc)
    (htv : jget dv "time".data = .ok tv) (htc : jget dc "time".data = .ok tc)
    (hge : jge tv tc = .ok true) :
    upsert st k v = .ok (rset st k v) := by
  simp only [upsert, hv, h, hc, htv, htc, hge, bind_ok_eq, pure_eq_ok]
  exact if_pos trivial

theorem upsert_skip (st : Store) (k : Str) (v c : RVal) (dv dc tv tc : JVal)
    (hv : jloads v = .ok dv) (h : rget st k = some c) (hc : jloads c = .ok dc)
    (htv : jget dv "time".data = .ok tv) (htc : jget dc "time".data = .ok tc)
    (hge : jge tv tc = .ok false) :
    upsert st k v = .ok st := by
  simp only [upsert, hv, h, hc, htv, htc, hge, bind_ok_eq, pure_eq_ok]
  rfl

theorem upsert_fail_of_loads_fail (st : Store) (k : Str) (v : RVal) (e : PyErr)
    (hv : jloads v = .error e) : upsert st k v = .error e := by
  simp only [upsert, hv, bind_error_eq]

/-- Inversion principle for a successful `_upsert`. -/
theorem upsert_ok_cases (st : Store) (k : Str) (v : RVal) (r : Store)
    (h : upsert st k v = .ok r) :
    ∃ dv, jloads v = .ok dv ∧
      ((rget st k = none ∧ r = rset st k v) ∨
       (∃ c dc tv tc b, rget st k = some c ∧ jloads c = .ok dc ∧
          jget dv "time".data = .ok tv ∧ jget dc "time".data = .ok tc ∧
          jge tv tc = .ok b ∧
          ((b = true ∧ r = rset st k v) ∨ (b = false ∧ r = st)))) := by
  cases hv : jloads v with
  | error e =>
    rw [upsert_fail_of_loads_fail st k v e hv] at h
    exact Except.noConfusion h
  | ok dv =>
    refine ⟨dv, rfl, ?_⟩
    cases hg : rget st k with
    | none =>
      rw [upsert_absent st k v dv hv hg] at h
      cases h
      exact Or.inl ⟨rfl, rfl⟩
    | some c =>
      cases hc : jloads c with
      | error e =>
        simp only [upsert, hv, hg, hc, bind_ok_eq, bind_error_eq] at h
        exact Except.noConfusion h
      | ok dc =>
        cases htv : jget dv "time".data with
        | error e =>
          simp only [upsert, hv, hg, hc, htv, bind_ok_eq, bind_error_eq] at h
          exact Except.noConfusion h
        | ok tv =>
          cases htc : jget dc "time".data with
          | error e =>
            simp only [upsert, hv, hg, hc, htv, htc, bind_ok_eq, bind_error_eq] at h
            exact Except.noConfusion h
          | ok tc =>
            cases hge : jge tv tc with
            | error e =>
              simp only [upsert, hv, hg, hc, htv, htc, hge, bind_ok_eq, bind_error_eq] at h
              exact Except.noConfusion h
            | ok b =>
              refine Or.inr ⟨c, dc, tv, tc, b, rfl, hc, rfl, htc, hge, ?_⟩
              cases b with
              | true =>
                rw [upsert_write st k v c dv dc tv tc hv hg hc htv htc hge] at h
                cases h
                exact Or.inl ⟨rfl, rfl⟩
              | false =>
                rw [upsert_skip st k v c dv dc tv tc hv hg hc htv htc hge] at h
                cases h
                exact Or.inr ⟨rfl, rfl⟩

/-! ## Replay lemmas: a second `_upsert` of the same value cannot change the
store a first `_upsert` has produced. -/

/-- If the key already holds exactly the incoming value, a successful
`_upsert` leaves the store untouched (tie on the embedded timestamp,
rewritten in place). -/
theorem upsert_noChange_of_rget_self (st : Store) (k : Str) (v : RVal)
    (h : rget st k = some v) :
    ∀ r, upsert st k v = .ok r → r = st := by
  intro r hr
  obtain ⟨dv, hv, hcase⟩ := upsert_ok_cases st k v r hr
  rcases hcase with ⟨hnone, _⟩ | ⟨c, dc, tv, tc, b, hsome, hc, htv, htc, hge, hb⟩
  · rw [h] at hnone
    exact Option.noConfusion hnone
  · rw [h] at hsome
    injection hsome with hcv
    subst hcv
    rw [hv] at hc
    injection hc with hdc
    subst hdc
    rw [htv] at htc
    injection htc with htvtc
    subst htvtc
    have hb2 := jge_self_ok tv b hge
    subst hb2
    rcases hb with ⟨_, hr2⟩ | ⟨hfalse, _⟩
    · rw [hr2]
      exact rset_of_rget_self st k v h
    · exact Bool.noConfusion hfalse

/-- After a successful `_upsert`, replaying the same `_upsert` cannot change
the resulting store. -/
theorem upsert_ok_noChange (st : Store) (k : Str) (v : RVal) (st' : Store)
    (h : upsert st k v = .ok st') :
    ∀ r, upsert st' k v = .ok r → r = st' := by
  obtain ⟨dv, hv, hcase⟩ := upsert_ok_cases st k v st' h
  rcases hcase with ⟨hnone, hst⟩ | ⟨c, dc, tv, tc, b, hsome, hc, htv, htc, hge, hb⟩
  · subst hst
    apply upsert_noChange_of_rget_self
    rw [rget_rset]
    simp
  · rcases hb with ⟨hbt, hst⟩ | ⟨hbf, hst⟩
    · subst hst
      apply upsert_noChange_of_rget_self
      rw [rget_rset]
      simp
    · intro r hr
      rw [hst] at hr ⊢
      subst hbf
      have hskip := upsert_skip st k v c dv dc tv tc hv hsome hc htv htc hge
      rw [hskip] at hr
      injection hr with hr
      exact hr.symm

/-- The no-change property for key `k` survives a successful `_upsert` of the
same value at any key `k'`. -/
theorem noChange_preserved (st : Store) (k k' : Str) (v : RVal) (st'' : Store)
    (hnc : ∀ r, upsert st k v = .ok r → r = st)
    (h : upsert st k' v = .ok st'') :
    ∀ r, upsert st'' k v = .ok r → r = st'' := by
  obtain ⟨dv0, hv0, hcase0⟩ := upsert_ok_cases st k' v st'' h
  have hform : st'' = rset st k' v ∨ st'' = st := by
    rcases hcase0 with ⟨_, hst⟩ | ⟨c, dc, tv, tc, b, _, _, _, _, _, hb⟩
    · exact Or.inl hst
    · rcases hb with ⟨_, hst⟩ | ⟨_, hst⟩
      · exact Or.inl hst
      · exact Or.inr hst
  rcases hform with hst | hst
  · subst hst
    by_cases hkk : k' = k
    · subst hkk
      apply upsert_noChange_of_rget_self
      rw [rget_rset]
      simp
    · have hr : rget (rset st k' v) k = rget st k := by
        rw [rget_rset]
        simp [hkk]
      intro r hrr
      obtain ⟨dv2, hv2, hcase2⟩ := upsert_ok_cases (rset st k' v) k v r hrr
      rcases hcase2 with ⟨hnone, hres⟩ | ⟨c, dc, tv, tc, b, hsome, hc, htv, htc, hge, hb⟩
      · exfalso
        rw [hr] at hnone
        have hw : upsert st k v = .ok (rset st k v) := upsert_absent st k v dv2 hv2 hnone
        have h2 := hnc _ hw
        have h3 := rget_self_of_rset_eq st k v h2
        rw [hnone] at h3
        exact Option.noConfusion h3
      · rw [hr] at hsome
        rcases hb with ⟨hbt, hres⟩ | ⟨hbf, hres⟩
        · subst hbt
          have hw : upsert st k v = .ok (rset st k v) :=
            upsert_write st k v c dv2 dc tv tc hv2 hsome hc htv htc hge
          have h2 := hnc _ hw
          have h3 := rget_self_of_rset_eq st k v h2
          rw [hsome] at h3
          injection h3 with hcv
          subst hres
          apply rset_of_rget_self
          rw [hr, hsome, hcv]
        · subst hres
          rfl
  · subst hst
    exact hnc

theorem upsert3_err1 (st : Store) (k1 k2 k3 : Str) (v : RVal) (e : PyErr)
    (h1 : upsert st k1 v = .error e) : upsert3 st k1 k2 k3 v = (st, false) := by
  simp only [upsert3, h1]

theorem upsert3_err2 (st : Store) (k1 k2 k3 : Str) (v : RVal) (st1 : Store) (e : PyErr)
    (h1 : upsert st k1 v = .ok st1) (h2 : upsert st1 k2 v = .error e) :
    upsert3 st k1 k2 k3 v = (st1, false) := by
  simp only [upsert3, h1, h2]

theorem upsert3_err3 (st : Store) (k1 k2 k3 : Str) (v : RVal) (st1 st2 : Store) (e : PyErr)
    (h1 : upsert st k1 v = .ok st1) (h2 : upsert st1 k2 v = .ok st2)
    (h3 : upsert st2 k3 v = .error e) :
    upsert3 st k1 k2 k3 v = (st2, false) := by
  simp only [upsert3, h1, h2, h3]

theorem upsert3_all_ok (st : Store) (k1 k2 k3 : Str) (v : RVal) (st1 st2 st3 : Store)
    (h1 : upsert st k1 v = .ok st1) (h2 : upsert st1 k2 v = .ok st2)
    (h3 : upsert st2 k3 v = .ok st3) :
    upsert3 st k1 k2 k3 v = (st3, true) := by
  simp only [upsert3, h1, h2, h3]

/-- Replaying the three sequential upserts of `callback` with the same value
cannot change the store the first pass produced, whatever the first pass did
(including stopping early on an exception). -/
theorem upsert3_replay (st : Store) (k1 k2 k3 : Str) (v : RVal) :
    (upsert3 (upsert3 st k1 k2 k3 v).1 k1 k2 k3 v).1 = (upsert3 st k1 k2 k3 v).1 := by
  have replay : ∀ s : Store,
      (∀ r, upsert s k1 v = .ok r → r = s) →
      (∀ r, upsert s k2 v = .ok r → r = s) →
      (∀ r, upsert s k3 v = .ok r → r = s) →
      (upsert3 s k1 k2 k3 v).1 = s := by
    intro s n1 n2 n3
    cases h1' : upsert s k1 v with
    | error e => rw [upsert3_err1 s k1 k2 k3 v e h1']
    | ok r1 =>
      rw [n1 r1 h1'] at h1'
      cases h2' : upsert s k2 v with
      | error e => rw [upsert3_err2 s k1 k2 k3 v s e h1' h2']
      | ok r2 =>
        rw [n2 r2 h2'] at h2'
        cases h3' : upsert s k3 v with
        | error e => rw [upsert3_err3 s k1 k2 k3 v s s e h1' h2' h3']
        | ok r3 =>
          rw [n3 r3 h3'] at h3'
          rw [upsert3_all_ok s k1 k2 k3 v s s s h1' h2' h3']
  have trivNC : ∀ (s : Store) (k : Str), upsert s k v = .error (PyErr.jsonError) → True := by
    intro s k h
    trivial
  cases h1 : upsert st k1 v with
  | error e1 =>
    rw [upsert3_err1 st k1 k2 k3 v e1 h1, upsert3_err1 st k1 k2 k3 v e1 h1]
  | ok st1 =>
    have hnc1 : ∀ r, upsert st1 k1 v = .ok r → r = st1 := upsert_ok_noChange st k1 v st1 h1
    cases h2 : upsert st1 k2 v with
    | error e2 =>
      rw [upsert3_err2 st k1 k2 k3 v st1 e2 h1 h2]
      cases h1' : upsert st1 k1 v with
      | error e => rw [upsert3_err1 st1 k1 k2 k3 v e h1']
      | ok r =>
        rw [hnc1 r h1'] at h1'
        rw [upsert3_err2 st1 k1 k2 k3 v st1 e2 h1' h2]
    | ok st2 =>
      have hnc1' : ∀ r, upsert st2 k1 v = .ok r → r = st2 :=
        noChange_preserved st1 k1 k2 v st2 hnc1 h2
      have hnc2 : ∀ r, upsert st2 k2 v = .ok r → r = st2 := upsert_ok_noChange st1 k2 v st2 h2
      cases h3 : upsert st2 k3 v with
      | error e3 =>
        rw [upsert3_err3 st k1 k2 k3 v st1 st2 e3 h1 h2 h3]
        cases h1' : upsert st2 k1 v with
        | error e => rw [upsert3_err1 st2 k1 k2 k3 v e h1']
        | ok r =>
          rw [hnc1' r h1'] at h1'
          cases h2' : upsert st2 k2 v with
          | error e => rw [upsert3_err2 st2 k1 k2 k3 v st2 e h1' h2']
          | ok r' =>
            rw [hnc2 r' h2'] at h2'
            rw [upsert3_err3 st2 k1 k2 k3 v st2 st2 e3 h1' h2' h3]
      | ok st3 =>
        have hnc1'' : ∀ r, upsert st3 k1 v = .ok r → r = st3 :=
          noChange_preserved st2 k1 k3 v st3 hnc1' h3
        have hnc2' : ∀ r, upsert st3 k2 v = .ok r → r = st3 :=
          noChange_preserved st2 k2 k3 v st3 hnc2 h3
        have hnc3 : ∀ r, upsert st3 k3 v = .ok r → r = st3 := upsert_ok_noChange st2 k3 v st3 h3
        rw [upsert3_all_ok st k1 k2 k3 v st1 st2 st3 h1 h2 h3]
        exact replay st3 hnc1'' hnc2' hnc3

/-! ## Derived-key shape lemmas -/

theorem natDigitsFuel_isDigit (fuel : Nat) :
    ∀ n c, c ∈ natDigitsFuel fuel n → c.isDigit = true := by
  induction fuel with
  | zero => intro n c hc; simp [natDigitsFuel] at hc
  | succ f ih =>
    intro n c hc
    by_cases h0 : n = 0
    · simp [natDigitsFuel, h0] at hc
    · simp only [natDigitsFuel, h0, if_false, List.mem_append, List.mem_singleton] at hc
      rcases hc with hc | hc
      · exact ih _ c hc
      · subst hc
        have hm : n % 10 < 10 := Nat.mod_lt _ (by norm_num)
        interval_cases h : n % 10 <;> decide

theorem intToStr_mem (i : Int) (c : Char) (hc : c ∈ intToStr i) :
    c = '-' ∨ c.isDigit = true := by
  unfold intToStr at hc
  by_cases hi : i < 0
  · simp only [hi, if_true, List.mem_cons] at hc
    rcases hc with hc | hc
    · exact Or.inl hc
    · unfold natToStr at hc
      by_cases h0 : i.natAbs = 0
      · simp [h0] at hc
        subst hc
        exact Or.inr (by decide)
      · simp only [h0, if_false] at hc
        exact Or.inr (natDigitsFuel_isDigit _ _ c hc)
  · simp only [hi, if_false] at hc
    unfold natToStr at hc
    by_cases h0 : i.toNat = 0
    · simp [h0] at hc
      subst hc
      exact Or.inr (by decide)
    · simp only [h0, if_false] at hc
      exact Or.inr (natDigitsFuel_isDigit _ _ c hc)

theorem comma_not_mem_intToStr (i : Int) : ',' ∉ intToStr i := by
  intro h
  rcases intToStr_mem i ',' h with h1 | h1
  · exact absurd h1 (by decide)
  · exact absurd h1 (by decide)

theorem comma_not_mem_stationKey (n : Int) : ',' ∉ stationKey (.jnum n) := by
  intro h
  simp only [stationKey, pyStr, List.mem_append] at h
  rcases h with h | h
  · exact absurd h (by decide)
  · exact comma_not_mem_intToStr n h

theorem comma_not_mem_beaconKey (n : Int) : ',' ∉ beaconKey (.jnum n) := by
  intro h
  simp only [beaconKey, pyStr, List.mem_append] at h
  rcases h with h | h
  · exact absurd h (by decide)
  · exact comma_not_mem_intToStr n h

theorem comma_mem_stationBeaconKey (a b : JVal) : ',' ∈ stationBeaconKey a b := by
  simp [stationBeaconKey]

theorem stationKey_ne_beaconKey (x y : Int) :
    stationKey (.jnum x) ≠ beaconKey (.jnum y) := by
  intro h
  simp [stationKey, beaconKey, pyStr] at h

theorem stationKey_ne_sbKey (x : Int) (a b : JVal) :
    stationKey (.jnum x) ≠ stationBeaconKey a b := by
  intro h
  have hmem := comma_mem_stationBeaconKey a b
  rw [← h] at hmem
  exact comma_not_mem_stationKey x hmem

theorem beaconKey_ne_sbKey (y : Int) (a b : JVal) :
    beaconKey (.jnum y) ≠ stationBeaconKey a b := by
  intro h
  have hmem := comma_mem_stationBeaconKey a b
  rw [← h] at hmem
  exact comma_not_mem_beaconKey y hmem

/-! ## Per-key effect of upserts -/

/-- A successful `_upsert` changes at most its own key, and only to the
incoming value. -/
theorem upsert_ok_sets (st : Store) (k' : Str) (v : RVal) (st' : Store)
    (h : upsert st k' v = .ok st') (k : Str) :
    rget st' k = rget st k ∨ rget st' k = some v := by
  obtain ⟨dv, hv, hcase⟩ := upsert_ok_cases st k' v st' h
  have hform : st' = rset st k' v ∨ st' = st := by
    rcases hcase with ⟨_, hst⟩ | ⟨c, dc, tv, tc, b, _, _, _, _, _, hb⟩
    · exact Or.inl hst
    · rcases hb with ⟨_, hst⟩ | ⟨_, hst⟩
      · exact Or.inl hst
      · exact Or.inr hst
  rcases hform with hst | hst
  · subst hst
    rw [rget_rset]
    by_cases hk : k' = k
    · simp [hk]
    · simp [hk]
  · subst hst
    exact Or.inl rfl

/-- A successful `_upsert` leaves every other key's value untouched. -/
theorem upsert_ok_preserves_ne (st : Store) (k' : Str) (v : RVal) (st' : Store)
    (h : upsert st k' v = .ok st') (k : Str) (hne : k' ≠ k) :
    rget st' k = rget st k := by
  obtain ⟨dv, hv, hcase⟩ := upsert_ok_cases st k' v st' h
  have hform : st' = rset st k' v ∨ st' = st := by
    rcases hcase with ⟨_, hst⟩ | ⟨c, dc, tv, tc, b, _, _, _, _, _, hb⟩
    · exact Or.inl hst
    · rcases hb with ⟨_, hst⟩ | ⟨_, hst⟩
      · exact Or.inl hst
      · exact Or.inr hst
  rcases hform with hst | hst
  · subst hst
    rw [rget_rset]
    simp [hne]
  · subst hst
    rfl

/-- Value found after three same-value writes. -/
theorem rget_rset3 (st : Store) (k1 k2 k3 k : Str) (v : RVal) :
    rget (rset (rset (rset st k1 v) k2 v) k3 v) k =
      if k3 = k ∨ k2 = k ∨ k1 = k then some v else rget st k := by
  rw [rget_rset, rget_rset, rget_rset]
  by_cases h3 : k3 = k <;> by_cases h2 : k2 = k <;> by_cases h1 : k1 = k <;>
    simp [h1, h2, h3]

/-! ## Callback reduction lemmas -/

theorem deriveIds_ok (v : RVal) (d a b : JVal)
    (h1 : jloads v = .ok d) (h2 : jget d "station_id".data = .ok a)
    (h3 : jget d "beacon_id".data = .ok b) : deriveIds v = .ok (a, b) := by
  simp only [deriveIds, h1, h2, h3, bind_ok_eq, pure_eq_ok]

theorem callback_raised (st : Store) (v : RVal) (e : PyErr)
    (h : deriveIds v = .error e) : callback st v = (st, .raised) := by
  simp only [callback, h]

theorem callback_of_derive (st : Store) (v : RVal) (a b : JVal)
    (h : deriveIds v = .ok (a, b)) :
    callback st v =
      ((upsert3 st (stationKey a) (beaconKey b) (stationBeaconKey a b) v).1,
       if (upsert3 st (stationKey a) (beaconKey b) (stationBeaconKey a b) v).2 then
         COutcome.acked else COutcome.nacked) := by
  simp only [callback, h]
  rcases hu : upsert3 st (stationKey a) (beaconKey b) (stationBeaconKey a b) v with ⟨s, fl⟩
  cases fl <;> rfl

theorem callback_all_ok (st : Store) (v : RVal) (a b : JVal) (st1 st2 st3 : Store)
    (hd : deriveIds v = .ok (a, b))
    (h1 : upsert st (stationKey a) v = .ok st1)
    (h2 : upsert st1 (beaconKey b) v = .ok st2)
    (h3 : upsert st2 (stationBeaconKey a b) v = .ok st3) :
    callback st v = (st3, .acked) := by
  rw [callback_of_derive st v a b hd,
    upsert3_all_ok st (stationKey a) (beaconKey b) (stationBeaconKey a b) v st1 st2 st3 h1 h2 h3]
  rfl

/-! ## Claim theorems : consolidation side -/

/-- C5.  Re-delivering the same message to the consolidation callback leaves
the whole store exactly as it was after the first delivery, for every store
and every payload: a second delivery either re-writes identical values on
timestamp ties, skips on strictly-newer stored values, or stops on the same
exception as the first — in every case changing nothing. -/
theorem claim_C5_redelivery_idempotent (st : Store) (v : RVal) :
    (callback (callback st v).1 v).1 = (callback st v).1 := by
  cases hd : deriveIds v with
  | error e =>
    rw [callback_raised st v e hd]
    rw [callback_raised st v e hd]
  | ok ab =>
    obtain ⟨a, b⟩ := ab
    rw [callback_of_derive st v a b hd]
    rw [callback_of_derive _ v a b hd]
    exact upsert3_replay st _ _ _ v

/-- C3.  With derivable keys, the callback acknowledges the message exactly
when all three `_upsert` calls complete without raising; when any of them
raises, the outcome is `nacked` (the message is left unacknowledged), and
the resulting store is in either case the store the upsert sequence
produced. -/
theorem claim_C3_ack_iff_upserts_ok (st : Store) (v : RVal) (d a b : JVal)
    (h1 : jloads v = .ok d) (h2 : jget d "station_id".data = .ok a)
    (h3 : jget d "beacon_id".data = .ok b) :
    ((callback st v).2 = COutcome.acked ↔
      (upsert3 st (stationKey a) (beaconKey b) (stationBeaconKey a b) v).2 = true) ∧
    ((upsert3 st (stationKey a) (beaconKey b) (stationBeaconKey a b) v).2 = false →
      (callback st v).2 = COutcome.nacked) ∧
    (callback st v).1 = (upsert3 st (stationKey a) (beaconKey b) (stationBeaconKey a b) v).1 := by
  have hd := deriveIds_ok v d a b h1 h2 h3
  rw [callback_of_derive st v a b hd]
  rcases hu : upsert3 st (stationKey a) (beaconKey b) (stationBeaconKey a b) v with ⟨s, fl⟩
  cases fl <;> simp

/-- C10.  A JSON-object payload lacking `station_id` (or having it but
lacking `beacon_id`) makes the callback raise during key derivation, before
the guarded upsert block: the store is returned untouched (no key written)
and the message is never acknowledged. -/
theorem claim_C10_missing_id_raises (st : Store) (fs : List (Str × JAtom)) :
    (jlookup fs "station_id".data = none →
      callback st (some (JVal.jobj fs)) = (st, COutcome.raised)) ∧
    (∀ sv, jlookup fs "station_id".data = some sv →
      jlookup fs "beacon_id".data = none →
      callback st (some (JVal.jobj fs)) = (st, COutcome.raised)) := by
  constructor
  · intro h
    have hd : deriveIds (some (JVal.jobj fs)) = .error PyErr.keyError := by
      simp only [deriveIds, jloads, bind_ok_eq, jget, h, bind_error_eq]
    exact callback_raised st _ _ hd
  · intro sv h1 h2
    have hd : deriveIds (some (JVal.jobj fs)) = .error PyErr.keyError := by
      simp only [deriveIds, jloads, bind_ok_eq, jget, h1, h2, bind_error_eq]
    exact callback_raised st _ _ hd

/-- C10 witness: payloads missing one of the two id fields are raised on,
with the store returned unchanged. -/
theorem claim_C10_witness :
    callback [] (some (JVal.jobj [("beacon_id".data, JAtom.anum 2)])) = ([], COutcome.raised) ∧
    callback [] (some (JVal.jobj [("station_id".data, JAtom.anum 1)])) = ([], COutcome.raised) :=
  ⟨(claim_C10_missing_id_raises [] _).1 (by decide),
   (claim_C10_missing_id_raises [] _).2 (JAtom.anum 1) (by decide) (by decide)⟩

/-- When each derived key is either fresh or holds a parseable stale payload
whose time is not newer than the incoming one, the callback acknowledges and
rewrites all three keys with the incoming message. -/
theorem callback_writes_all (st0 : Store) (fs fsOld : List (Str × JAtom))
    (a b t tOld : Int)
    (hs : jlookup fs "station_id".data = some (.anum a))
    (hb : jlookup fs "beacon_id".data = some (.anum b))
    (ht : jlookup fs "time".data = some (.anum t))
    (htOld : jlookup fsOld "time".data = some (.anum tOld))
    (hle : tOld ≤ t)
    (hc1 : rget st0 (stationKey (.jnum a)) = none ∨
           rget st0 (stationKey (.jnum a)) = some (some (.jobj fsOld)))
    (hc2 : rget st0 (beaconKey (.jnum b)) = none ∨
           rget st0 (beaconKey (.jnum b)) = some (some (.jobj fsOld)))
    (hc3 : rget st0 (stationBeaconKey (.jnum a) (.jnum b)) = none ∨
           rget st0 (stationBeaconKey (.jnum a) (.jnum b)) = some (some (.jobj fsOld))) :
    callback st0 (some (.jobj fs)) =
      (rset (rset (rset st0 (stationKey (.jnum a)) (some (.jobj fs)))
        (beaconKey (.jnum b)) (some (.jobj fs)))
        (stationBeaconKey (.jnum a) (.jnum b)) (some (.jobj fs)), .acked) := by
  have hja : jget (JVal.jobj fs) "station_id".data = .ok (.jnum a) := by
    simp only [jget, hs, JAtom.toJVal]
  have hjb : jget (JVal.jobj fs) "beacon_id".data = .ok (.jnum b) := by
    simp only [jget, hb, JAtom.toJVal]
  have hjt : jget (JVal.jobj fs) "time".data = .ok (.jnum t) := by
    simp only [jget, ht, JAtom.toJVal]
  have hjtOld : jget (JVal.jobj fsOld) "time".data = .ok (.jnum tOld) := by
    simp only [jget, htOld, JAtom.toJVal]
  have hd : deriveIds (some (JVal.jobj fs)) = .ok (.jnum a, .jnum b) :=
    deriveIds_ok _ _ _ _ rfl hja hjb
  have hge : jge (JVal.jnum t) (JVal.jnum tOld) = .ok true := by
    simp only [jge, Except.ok.injEq, decide_eq_true_eq]
    omega
  have step : ∀ (X : Store) (kk : Str),
      (rget X kk = none ∨ rget X kk = some (some (.jobj fsOld))) →
      upsert X kk (some (.jobj fs)) = .ok (rset X kk (some (.jobj fs))) := by
    intro X kk hcase
    rcases hcase with hnone | hstale
    · exact upsert_absent _ _ _ (.jobj fs) rfl hnone
    · exact upsert_write _ _ _ _ (.jobj fs) (.jobj fsOld) (.jnum t) (.jnum tOld)
        rfl hstale rfl hjt hjtOld hge
  have hu1 := step st0 (stationKey (.jnum a)) hc1
  have hc2' : rget (rset st0 (stationKey (.jnum a)) (some (JVal.jobj fs)))
      (beaconKey (.jnum b)) = none ∨
      rget (rset st0 (stationKey (.jnum a)) (some (JVal.jobj fs)))
      (beaconKey (.jnum b)) = some (some (.jobj fsOld)) := by
    rw [rget_rset, if_neg (stationKey_ne_beaconKey a b)]
    exact hc2
  have hu2 := step _ (beaconKey (.jnum b)) hc2'
  have hc3' : rget (rset (rset st0 (stationKey (.jnum a)) (some (JVal.jobj fs)))
      (beaconKey (.jnum b)) (some (JVal.jobj fs)))
      (stationBeaconKey (.jnum a) (.jnum b)) = none ∨
      rget (rset (rset st0 (stationKey (.jnum a)) (some (JVal.jobj fs)))
      (beaconKey (.jnum b)) (some (JVal.jobj fs)))
      (stationBeaconKey (.jnum a) (.jnum b)) = some (some (.jobj fsOld)) := by
    rw [rget_rset, if_neg (beaconKey_ne_sbKey b _ _),
      rget_rset, if_neg (stationKey_ne_sbKey a _ _)]
    exact hc3
  have hu3 := step _ (stationBeaconKey (.jnum a) (.jnum b)) hc3'
  exact callback_all_ok st0 _ _ _ _ _ _ hd hu1 hu2 hu3

/-- A key holding a payload strictly newer than the incoming message keeps
its value through a whole callback delivery, wherever the three upserts
stop. -/
theorem callback_preserves_newer (st0 : Store) (fs fsNew : List (Str × JAtom))
    (a b t tNew : Int) (k : Str)
    (hs : jlookup fs "station_id".data = some (.anum a))
    (hb : jlookup fs "beacon_id".data = some (.anum b))
    (ht : jlookup fs "time".data = some (.anum t))
    (htNew : jlookup fsNew "time".data = some (.anum tNew))
    (hlt : t < tNew)
    (hkval : rget st0 k = some (some (.jobj fsNew))) :
    rget (callback st0 (some (.jobj fs))).1 k = some (some (.jobj fsNew)) := by
  have hja : jget (JVal.jobj fs) "station_id".data = .ok (.jnum a) := by
    simp only [jget, hs, JAtom.toJVal]
  have hjb : jget (JVal.jobj fs) "beacon_id".data = .ok (.jnum b) := by
    simp only [jget, hb, JAtom.toJVal]
  have hjt : jget (JVal.jobj fs) "time".data = .ok (.jnum t) := by
    simp only [jget, ht, JAtom.toJVal]
  have hjtNew : jget (JVal.jobj fsNew) "time".data = .ok (.jnum tNew) := by
    simp only [jget, htNew, JAtom.toJVal]
  have hd : deriveIds (some (JVal.jobj fs)) = .ok (.jnum a, .jnum b) :=
    deriveIds_ok _ _ _ _ rfl hja hjb
  have hgefalse : jge (JVal.jnum t) (JVal.jnum tNew) = .ok false := by
    simp only [jge, Except.ok.injEq, decide_eq_false_iff_not]
    omega
  have hstep : ∀ (X Y : Store) (kk : Str), upsert X kk (some (.jobj fs)) = .ok Y →
      rget X k = some (some (.jobj fsNew)) → rget Y k = some (some (.jobj fsNew)) := by
    intro X Y kk hup hX
    by_cases hne : kk = k
    · rw [hne] at hup
      have hskip := upsert_skip X k (some (.jobj fs)) (some (.jobj fsNew))
        (.jobj fs) (.jobj fsNew) (.jnum t) (.jnum tNew) rfl hX rfl hjt hjtNew hgefalse
      rw [hskip] at hup
      injection hup with hup
      rw [← hup]
      exact hX
    · rw [upsert_ok_preserves_ne X kk _ Y hup k hne]
      exact hX
  rw [callback_of_derive st0 _ (.jnum a) (.jnum b) hd]
  show rget (upsert3 st0 (stationKey (.jnum a)) (beaconKey (.jnum b))
    (stationBeaconKey (.jnum a) (.jnum b)) (some (.jobj fs))).1 k =
    some (some (.jobj fsNew))
  cases h1 : upsert st0 (stationKey (.jnum a)) (some (JVal.jobj fs)) with
  | error e =>
    rw [upsert3_err1 st0 (stationKey (.jnum a)) (beaconKey (.jnum b))
      (stationBeaconKey (.jnum a) (.jnum b)) (some (.jobj fs)) e h1]
    exact hkval
  | ok s1 =>
    have k1v := hstep _ _ _ h1 hkval
    cases h2 : upsert s1 (beaconKey (.jnum b)) (some (JVal.jobj fs)) with
    | error e =>
      rw [upsert3_err2 st0 (stationKey (.jnum a)) (beaconKey (.jnum b))
        (stationBeaconKey (.jnum a) (.jnum b)) (some (.jobj fs)) s1 e h1 h2]
      exact k1v
    | ok s2 =>
      have k2v := hstep _ _ _ h2 k1v
      cases h3 : upsert s2 (stationBeaconKey (.jnum a) (.jnum b)) (some (JVal.jobj fs)) with
      | error e =>
        rw [upsert3_err3 st0 (stationKey (.jnum a)) (beaconKey (.jnum b))
          (stationBeaconKey (.jnum a) (.jnum b)) (some (.jobj fs)) s1 s2 e h1 h2 h3]
        exact k2v
      | ok s3 =>
        rw [upsert3_all_ok st0 (stationKey (.jnum a)) (beaconKey (.jnum b))
          (stationBeaconKey (.jnum a) (.jnum b)) (some (.jobj fs)) s1 s2 s3 h1 h2 h3]
        exact hstep _ _ _ h3 k2v

/-- C2.  Last-write-wins ordering robustness: two valid telemetry messages
sharing a derived key, with embedded times `t1 < t2`, delivered to the
callback in either order over a store in which all their derived keys are
fresh, leave every shared key holding the `t2` message. -/
theorem claim_C2_lww_order_robust (st : Store) (fs1 fs2 : List (Str × JAtom))
    (a1 b1 t1 a2 b2 t2 : Int)
    (hs1 : jlookup fs1 "station_id".data = some (.anum a1))
    (hb1 : jlookup fs1 "beacon_id".data = some (.anum b1))
    (ht1 : jlookup fs1 "time".data = some (.anum t1))
    (hs2 : jlookup fs2 "station_id".data = some (.anum a2))
    (hb2 : jlookup fs2 "beacon_id".data = some (.anum b2))
    (ht2 : jlookup fs2 "time".data = some (.anum t2))
    (hlt : t1 < t2)
    (habs11 : rget st (stationKey (.jnum a1)) = none)
    (habs12 : rget st (beaconKey (.jnum b1)) = none)
    (habs13 : rget st (stationBeaconKey (.jnum a1) (.jnum b1)) = none)
    (habs21 : rget st (stationKey (.jnum a2)) = none)
    (habs22 : rget st (beaconKey (.jnum b2)) = none)
    (habs23 : rget st (stationBeaconKey (.jnum a2) (.jnum b2)) = none)
    (k : Str)
    (hk1 : k = stationKey (.jnum a1) ∨ k = beaconKey (.jnum b1) ∨
           k = stationBeaconKey (.jnum a1) (.jnum b1))
    (hk2 : k = stationKey (.jnum a2) ∨ k = beaconKey (.jnum b2) ∨
           k = stationBeaconKey (.jnum a2) (.jnum b2)) :
    rget (callback (callback st (some (.jobj fs1))).1 (some (.jobj fs2))).1 k
        = some (some (.jobj fs2)) ∧
    rget (callback (callback st (some (.jobj fs2))).1 (some (.jobj fs1))).1 k
        = some (some (.jobj fs2)) := by
  have hmemk : stationBeaconKey (.jnum a2) (.jnum b2) = k ∨ beaconKey (.jnum b2) = k ∨
      stationKey (.jnum a2) = k := by
    tauto
  constructor
  · -- deliver fs1 first, then fs2
    have hcb1 := callback_writes_all st fs1 fs1 a1 b1 t1 t1 hs1 hb1 ht1 ht1 le_rfl
      (Or.inl habs11) (Or.inl habs12) (Or.inl habs13)
    have hcbf1 : (callback st (some (.jobj fs1))).1 =
        rset (rset (rset st (stationKey (.jnum a1)) (some (.jobj fs1)))
          (beaconKey (.jnum b1)) (some (.jobj fs1)))
          (stationBeaconKey (.jnum a1) (.jnum b1)) (some (.jobj fs1)) := by
      rw [hcb1]
    have hcond : ∀ kk : Str, rget st kk = none →
        rget (rset (rset (rset st (stationKey (.jnum a1)) (some (.jobj fs1)))
          (beaconKey (.jnum b1)) (some (.jobj fs1)))
          (stationBeaconKey (.jnum a1) (.jnum b1)) (some (.jobj fs1))) kk = none ∨
        rget (rset (rset (rset st (stationKey (.jnum a1)) (some (.jobj fs1)))
          (beaconKey (.jnum b1)) (some (.jobj fs1)))
          (stationBeaconKey (.jnum a1) (.jnum b1)) (some (.jobj fs1))) kk =
          some (some (.jobj fs1)) := by
      intro kk hkk
      rw [rget_rset3]
      by_cases hmem : stationBeaconKey (.jnum a1) (.jnum b1) = kk ∨
          beaconKey (.jnum b1) = kk ∨ stationKey (.jnum a1) = kk
      · rw [if_pos hmem]
        exact Or.inr rfl
      · rw [if_neg hmem]
        exact Or.inl hkk
    have hcb2 := callback_writes_all
      (rset (rset (rset st (stationKey (.jnum a1)) (some (.jobj fs1)))
        (beaconKey (.jnum b1)) (some (.jobj fs1)))
        (stationBeaconKey (.jnum a1) (.jnum b1)) (some (.jobj fs1)))
      fs2 fs1 a2 b2 t2 t1 hs2 hb2 ht2 ht1 hlt.le
      (hcond _ habs21) (hcond _ habs22) (hcond _ habs23)
    have hcbf2 : (callback
        (rset (rset (rset st (stationKey (.jnum a1)) (some (.jobj fs1)))
          (beaconKey (.jnum b1)) (some (.jobj fs1)))
          (stationBeaconKey (.jnum a1) (.jnum b1)) (some (.jobj fs1)))
        (some (.jobj fs2))).1 =
        rset (rset (rset
          (rset (rset (rset st (stationKey (.jnum a1)) (some (.jobj fs1)))
            (beaconKey (.jnum b1)) (some (.jobj fs1)))
            (stationBeaconKey (.jnum a1) (.jnum b1)) (some (.jobj fs1)))
          (stationKey (.jnum a2)) (some (.jobj fs2)))
          (beaconKey (.jnum b2)) (some (.jobj fs2)))
          (stationBeaconKey (.jnum a2) (.jnum b2)) (some (.jobj fs2)) := by
      rw [hcb2]
    rw [hcbf1, hcbf2, rget_rset3, if_pos hmemk]
  · -- deliver fs2 first, then fs1
    have hcb1' := callback_writes_all st fs2 fs2 a2 b2 t2 t2 hs2 hb2 ht2 ht2 le_rfl
      (Or.inl habs21) (Or.inl habs22) (Or.inl habs23)
    have hcbf1' : (callback st (some (.jobj fs2))).1 =
        rset (rset (rset st (stationKey (.jnum a2)) (some (.jobj fs2)))
          (beaconKey (.jnum b2)) (some (.jobj fs2)))
          (stationBeaconKey (.jnum a2) (.jnum b2)) (some (.jobj fs2)) := by
      rw [hcb1']
    have hkval : rget (rset (rset (rset st (stationKey (.jnum a2)) (some (.jobj fs2)))
        (beaconKey (.jnum b2)) (some (.jobj fs2)))
        (stationBeaconKey (.jnum a2) (.jnum b2)) (some (.jobj fs2))) k =
        some (some (.jobj fs2)) := by
      rw [rget_rset3, if_pos hmemk]
    rw [hcbf1']
    exact callback_preserves_newer _ fs1 fs2 a1 b1 t1 t2 k hs1 hb1 ht1 ht2 hlt hkval

/-- C2 witness, the §8 scenario: `{station 3, beacon 7, time 90}` and
`{station 3, beacon 9, time 100}` delivered in each order over an empty
store leave `station_id:3` holding the `time 100` message. -/
theorem claim_C2_witness :
    rget (callback (callback [] (tmsg 3 7 90)).1 (tmsg 3 9 100)).1
      (stationKey (.jnum 3)) = some (tmsg 3 9 100) ∧
    rget (callback (callback [] (tmsg 3 9 100)).1 (tmsg 3 7 90)).1
      (stationKey (.jnum 3)) = some (tmsg 3 9 100) :=
  claim_C2_lww_order_robust [] _ _ 3 7 90 3 9 100
    (by decide) (by decide) (by decide) (by decide) (by decide) (by decide)
    (by decide) (by decide) (by decide) (by decide) (by decide) (by decide)
    (by decide) (stationKey (.jnum 3)) (Or.inl rfl) (Or.inl rfl)

/-- C3 witness: a fresh telemetry message over an empty store has all three
upserts succeed, and the callback acknowledges it. -/
theorem claim_C3_witness :
    ((callback [] (tmsg 3 7 90)).2 = COutcome.acked ↔
      (upsert3 [] (stationKey (.jnum 3)) (beaconKey (.jnum 7))
        (stationBeaconKey (.jnum 3) (.jnum 7)) (tmsg 3 7 90)).2 = true) ∧
    ((upsert3 [] (stationKey (.jnum 3)) (beaconKey (.jnum 7))
        (stationBeaconKey (.jnum 3) (.jnum 7)) (tmsg 3 7 90)).2 = false →
      (callback [] (tmsg 3 7 90)).2 = COutcome.nacked) ∧
    (callback [] (tmsg 3 7 90)).1 =
      (upsert3 [] (stationKey (.jnum 3)) (beaconKey (.jnum 7))
        (stationBeaconKey (.jnum 3) (.jnum 7)) (tmsg 3 7 90)).1 :=
  claim_C3_ack_iff_upserts_ok [] (tmsg 3 7 90)
    (.jobj [("station_id".data, .anum 3), ("beacon_id".data, .anum 7),
            ("time".data, .anum 90)])
    (.jnum 3) (.jnum 7) (by decide) (by decide) (by decide)

/-- C4 counterexample.  With garbage stored under `beacon_id:2`, delivering
`{station 1, beacon 2, time 5}` writes `station_id:1` and then raises on the
`beacon_id:2` upsert: after processing, one of the three derived keys
reflects the message while the other two do not — a partial update, with the
message left unacknowledged. -/
theorem claim_C4_counterexample :
    (callback [("beacon_id:2".data, none)] (tmsg 1 2 5)).2 = COutcome.nacked ∧
    rget (callback [("beacon_id:2".data, none)] (tmsg 1 2 5)).1
      "station_id:1".data = some (tmsg 1 2 5) ∧
    rget (callback [("beacon_id:2".data, none)] (tmsg 1 2 5)).1
      "beacon_id:2".data = some none ∧
    rget (callback [("beacon_id:2".data, none)] (tmsg 1 2 5)).1
      "station_id:1,beacon_id:2".data = none := by
  refine ⟨by decide, by decide, by decide, by decide⟩

/-- C4 amended.  When no upsert raises (the message is acknowledged), every
key of the store ends holding either its previous value or the delivered
message — all writes of that delivery come from the same message; partial
application across the three derived keys can only happen when an upsert
raises mid-sequence, in which case the message is left unacknowledged. -/
theorem claim_C4_amended (st : Store) (v : RVal) (d a b : JVal)
    (h1 : jloads v = .ok d) (h2 : jget d "station_id".data = .ok a)
    (h3 : jget d "beacon_id".data = .ok b)
    (hack : (callback st v).2 = COutcome.acked) (k : Str) :
    rget (callback st v).1 k = rget st k ∨ rget (callback st v).1 k = some v := by
  have hd := deriveIds_ok v d a b h1 h2 h3
  have hcb := callback_of_derive st v a b hd
  rw [hcb] at hack
  rw [hcb]
  cases h1' : upsert st (stationKey a) v with
  | error e =>
    rw [upsert3_err1 st (stationKey a) (beaconKey b) (stationBeaconKey a b) v e h1'] at hack
    simp at hack
  | ok s1 =>
    cases h2' : upsert s1 (beaconKey b) v with
    | error e =>
      rw [upsert3_err2 st (stationKey a) (beaconKey b) (stationBeaconKey a b) v s1 e
        h1' h2'] at hack
      simp at hack
    | ok s2 =>
      cases h3' : upsert s2 (stationBeaconKey a b) v with
      | error e =>
        rw [upsert3_err3 st (stationKey a) (beaconKey b) (stationBeaconKey a b) v s1 s2 e
          h1' h2' h3'] at hack
        simp at hack
      | ok s3 =>
        rw [upsert3_all_ok st (stationKey a) (beaconKey b) (stationBeaconKey a b) v s1 s2 s3
          h1' h2' h3']
        show rget s3 k = rget st k ∨ rget s3 k = some v
        have d1 := upsert_ok_sets st (stationKey a) v s1 h1' k
        have d2 := upsert_ok_sets s1 (beaconKey b) v s2 h2' k
        have d3 := upsert_ok_sets s2 (stationBeaconKey a b) v s3 h3' k
        rcases d3 with d3 | d3
        · rw [d3]
          rcases d2 with d2 | d2
          · rw [d2]
            exact d1
          · rw [d2]
            exact Or.inr rfl
        · exact Or.inr d3

/-- C4 amended witness: an acknowledged delivery over the empty store leaves
the station key holding either its old value or the delivered message. -/
theorem claim_C4_amended_witness :
    rget (callback [] (tmsg 1 2 5)).1 (stationKey (.jnum 1)) =
      rget [] (stationKey (.jnum 1)) ∨
    rget (callback [] (tmsg 1 2 5)).1 (stationKey (.jnum 1)) = some (tmsg 1 2 5) :=
  claim_C4_amended [] (tmsg 1 2 5)
    (.jobj [("station_id".data, .anum 1), ("beacon_id".data, .anum 2),
            ("time".data, .anum 5)])
    (.jnum 1) (.jnum 2) (by decide) (by decide) (by decide) (by decide)
    (stationKey (.jnum 1))

/-! ## Framer lemmas -/

theorem dropWhile_length_le {α : Type} (p : α → Bool) (l : List α) :
    (l.dropWhile p).length ≤ l.length := by
  induction l with
  | nil => simp
  | cons a t ih =>
    by_cases h : p a = true
    · rw [List.dropWhile_cons_of_pos h]
      exact le_trans ih (Nat.le_succ _)
    · rw [List.dropWhile_cons_of_neg h]

theorem groupBlocksF_congr : ∀ (fuel fuel' : Nat) (ls : List Str),
    ls.length ≤ fuel → ls.length ≤ fuel' →
    groupBlocksF fuel ls = groupBlocksF fuel' ls := by
  intro fuel
  induction fuel with
  | zero =>
    intro fuel' ls hl _
    have hnil : ls = [] := List.eq_nil_of_length_eq_zero (Nat.le_zero.mp hl)
    subst hnil
    cases fuel' <;> rfl
  | succ f ih =>
    intro fuel' ls hl hl'
    cases ls with
    | nil => cases fuel' <;> rfl
    | cons line rest =>
      cases fuel' with
      | zero => simp at hl'
      | succ f' =>
        simp only [groupBlocksF]
        congr 1
        have h1 : rest.length ≤ f := by
          simp only [List.length_cons] at hl
          omega
        have h2 : rest.length ≤ f' := by
          simp only [List.length_cons] at hl'
          omega
        exact ih f' _ (le_trans (dropWhile_length_le _ _) h1)
          (le_trans (dropWhile_length_le _ _) h2)

theorem groupBlocks_cons (line : Str) (rest : List Str) :
    groupBlocks (line :: rest) =
      (line :: rest.takeWhile (fun l => !isMarker l)) ::
        groupBlocks (rest.dropWhile (fun l => !isMarker l)) := by
  show groupBlocksF (rest.length + 1) (line :: rest) = _
  simp only [groupBlocksF]
  congr 1
  exact groupBlocksF_congr rest.length _ _ (dropWhile_length_le _ _) le_rfl

theorem frame_false_eq (input : List Str) (msg : Str) :
    frame false msg input =
      match input.dropWhile (fun l => !isMarker l) with
      | [] => []
      | m :: rest => frame true m rest := by
  induction input with
  | nil => rfl
  | cons line rest ih =>
    by_cases hm : isMarker line = true
    · rw [List.dropWhile_cons_of_neg (by simp [hm])]
      simp [frame, hm]
    · rw [List.dropWhile_cons_of_pos (by simp [hm])]
      have hstep : frame false msg (line :: rest) = frame false msg rest := by
        simp [frame, hm]
      rw [hstep, ih]

theorem frame_true_eq (input : List Str) : ∀ acc : Str,
    frame true acc input =
      match input.dropWhile (fun l => !isMarker l) with
      | [] => []
      | m :: rest =>
        (acc ++ (input.takeWhile (fun l => !isMarker l)).flatten) :: frame true m rest := by
  induction input with
  | nil => intro acc; rfl
  | cons line rest ih =>
    intro acc
    by_cases hm : isMarker line = true
    · rw [List.dropWhile_cons_of_neg (by simp [hm]),
        List.takeWhile_cons_of_neg (by simp [hm])]
      simp [frame, hm]
    · rw [List.dropWhile_cons_of_pos (by simp [hm]),
        List.takeWhile_cons_of_pos (by simp [hm])]
      have hstep : frame true acc (line :: rest) = frame true (acc ++ line) rest := by
        simp [frame, hm]
      rw [hstep, ih (acc ++ line)]
      cases hdw : rest.dropWhile (fun l => !isMarker l) with
      | nil => rfl
      | cons m r => simp [List.flatten_cons, List.append_assoc]

theorem frame_true_spec : ∀ (n : Nat) (input : List Str), input.length ≤ n → ∀ m : Str,
    frame true m input = ((groupBlocks (m :: input)).dropLast).map List.flatten := by
  intro n
  induction n with
  | zero =>
    intro input hlen m
    have hnil : input = [] := List.eq_nil_of_length_eq_zero (Nat.le_zero.mp hlen)
    subst hnil
    rfl
  | succ n ih =>
    intro input hlen m
    rw [frame_true_eq, groupBlocks_cons]
    cases hdw : input.dropWhile (fun l => !isMarker l) with
    | nil => simp [groupBlocks, groupBlocksF]
    | cons m' rest' =>
      have hne : groupBlocks (m' :: rest') ≠ [] := by
        rw [groupBlocks_cons]
        simp
      show (m ++ (input.takeWhile (fun l => !isMarker l)).flatten) :: frame true m' rest' =
        (((m :: input.takeWhile (fun l => !isMarker l)) ::
          groupBlocks (m' :: rest')).dropLast).map List.flatten
      rw [List.dropLast_cons_of_ne_nil hne, List.map_cons, List.flatten_cons]
      congr 1
      have h1 : (input.dropWhile fun l => !isMarker l).length ≤ input.length :=
        dropWhile_length_le _ _
      rw [hdw] at h1
      simp only [List.length_cons] at h1
      exact ih rest' (by omega) m'

/-- C8.  The framing loop emits exactly the marker-delimited blocks the spec
describes: every line before the first `>`/`<` marker is discarded, each
block starts at a marker line and is emitted (as the concatenation of its
lines) when the next marker line arrives, the first marker emits nothing by
itself, and the trailing open block at stream end is never emitted. -/
theorem claim_C8_framer_exact (input : List Str) :
    framer input = specBlocks input := by
  show frame false [] input = _
  rw [frame_false_eq]
  unfold specBlocks
  cases hdw : input.dropWhile (fun l => !isMarker l) with
  | nil => rfl
  | cons m rest => exact frame_true_spec rest.length rest le_rfl m

end PubSub
